import Mathlib

/-!
Verification development for the redispack typed Redis facade layer.

The repository wraps an external Redis client (cpp_redis) and an external
binary serialization library (msgpack).  The facades (`hash<K,V>`,
`set<T>`) encode typed arguments to byte strings, issue a remote command,
and interpret the raw reply.  We embed:

* the codec wrapper (`details::encode_into_str` / `details::decode_from_str`
  in src/redispack/util.h), with the external msgpack pack/unpack pair
  modelled abstractly as a `Codec` record;
* the cpp_redis reply shape and each facade callback's interpretation of it;
* the remote command semantics documented in the spec (SADD, SREM, SCARD,
  SMEMBERS, SDIFF, SINTER, SUNION, HSETNX, HGET, HDEL, HEXISTS, HLEN), over
  an association-list model of the server store;
* the end-to-end facade operations of src/redispack/set.h and
  src/redispack/hash.h, composing the above;
* `make_and_connect` of src/redispack/connection.h.
-/

namespace Redispack

/-- Byte strings on the wire (std::string payloads). -/
abbrev Str := String

/-- The external binary serialization codec (msgpack), modelled abstractly:
`pack` is `msgpack::pack` into a string buffer, `unpackConvert` is the
`msgpack::unpack(...).get().convert(obj)` step, which either produces the
value or raises an exception (modelled by the `Except` error branch). -/
structure Codec (T : Type) where
  pack : T → Str
  unpackConvert : Str → Except String T

/-- The helper `details::encode_into_str` (src/redispack/util.h): packs the value into a
string buffer via msgpack and returns the buffer contents. -/
def encode_into_str {T : Type} (c : Codec T) (v : T) : Str :=
  c.pack v

/-- The helper `details::decode_from_str` (src/redispack/util.h): unpacks and converts
the string; any exception is caught and mapped to `None`. -/
def decode_from_str {T : Type} (c : Codec T) (s : Str) : Option T :=
  match c.unpackConvert s with
  | .ok v => some v
  | .error _ => none

/-- The cpp_redis reply value consumed by the facade callbacks. -/
inductive Reply where
  | integer (i : Int)
  | bulkString (s : Str)
  | array (rs : List Reply)
  | simpleString (s : Str)
  | error (s : Str)
  | null

/-- Mirrors `cpp_redis::reply::is_integer`. -/
def Reply.is_integer : Reply → Bool
  | .integer _ => true
  | _ => false

/-- Mirrors `cpp_redis::reply::is_array`. -/
def Reply.is_array : Reply → Bool
  | .array _ => true
  | _ => false

/-- Mirrors `cpp_redis::reply::is_bulk_string`. -/
def Reply.is_bulk_string : Reply → Bool
  | .bulkString _ => true
  | _ => false

/-- Conversion `static_cast<size_t>` (or the implicit one) applied to the `int64_t`
returned by `reply::as_integer`. -/
def size_t_of_int (i : Int) : Nat :=
  (i % (2 : Int) ^ 64).toNat

/-- The counting callbacks (`details::add_impl`, `details::rem_impl`,
`set::card`, `hash::len`): a `size_t` initialized to 0, overwritten with
the reply integer only when the reply is an integer reply. -/
def count_reply (r : Reply) : Nat :=
  match r with
  | .integer i => size_t_of_int i
  | _ => 0

/-- The boolean-flag callbacks comparing against 1 (`set::is_member`,
`hash::exists`, `hash::set`, `hash::setnx`): a bool initialized to false,
set true only when the reply is an integer reply equal to 1. -/
def flag_eq_one_reply (r : Reply) : Bool :=
  match r with
  | .integer i => decide (i = 1)
  | _ => false

/-- The `hash::del` callback: deleted flag initialized false, set true only
when the reply is an integer reply strictly greater than 0. -/
def deleted_reply (r : Reply) : Bool :=
  match r with
  | .integer i => decide (0 < i)
  | _ => false

/-- The collection callbacks (`set::members`, `set::diff`, `set::inter`,
`set::union_`, and likewise `hash::keys`): starting from an empty
unordered_set, when the reply is an array reply, each bulk-string element
is decoded and inserted when decoding succeeds; all other elements and all
non-array replies contribute nothing.  The unordered_set is modelled as the
deduplicated list of insertions. -/
def collect_reply {T : Type} [DecidableEq T] (c : Codec T) (r : Reply) : List T :=
  match r with
  | .array rs =>
      (rs.filterMap (fun sub =>
        match sub with
        | .bulkString s => decode_from_str c s
        | _ => none)).dedup
  | _ => []

/-- Lookup in an association list keyed by strings (server store by name,
hash entry by field string). -/
def assocGet {α : Type} (l : List (String × α)) (k : String) : Option α :=
  match l with
  | [] => none
  | (n, x) :: rest => if n = k then some x else assocGet rest k

/-- Update-or-append in an association list keyed by strings. -/
def assocSet {α : Type} (l : List (String × α)) (k : String) (x : α) : List (String × α) :=
  match l with
  | [] => [(k, x)]
  | (n, y) :: rest => if n = k then (k, x) :: rest else (n, y) :: assocSet rest k x

/-- The server-side store of Redis sets: each set name maps to the list of
raw member strings currently held (no duplicates in a well-formed store). -/
abbrev SetServer := List (String × List Str)

/-- Raw members of the named remote set (absent name means empty set). -/
def lookupSet (srv : SetServer) (name : String) : List Str :=
  (assocGet srv name).getD []

/-- Modelled from the spec: Redis SADD over one set — each argument string
not yet present is appended and counted; arguments already present (or
repeated within the call after their first occurrence) add nothing. -/
def saddList (mems : List Str) (toAdd : List Str) : List Str × Nat :=
  match toAdd with
  | [] => (mems, 0)
  | s :: rest =>
      if s ∈ mems then saddList mems rest
      else
        let p := saddList (mems ++ [s]) rest
        (p.1, p.2 + 1)

/-- Removes the first occurrence of a member string from the member list. -/
def removeStr (mems : List Str) (s : Str) : List Str :=
  match mems with
  | [] => []
  | m :: rest => if m = s then rest else m :: removeStr rest s

/-- Modelled from the spec: Redis SREM over one set — each argument string
currently present is removed and counted; absent arguments remove nothing. -/
def sremList (mems : List Str) (toRem : List Str) : List Str × Nat :=
  match toRem with
  | [] => (mems, 0)
  | s :: rest =>
      if s ∈ mems then
        let p := sremList (removeStr mems s) rest
        (p.1, p.2 + 1)
      else sremList mems rest

/-- Modelled from the spec: the SCARD reply — integer cardinality. -/
def scardReply (srv : SetServer) (name : String) : Reply :=
  .integer ((lookupSet srv name).length)

/-- Modelled from the spec: the SMEMBERS reply — array of bulk strings. -/
def smembersReply (srv : SetServer) (name : String) : Reply :=
  .array ((lookupSet srv name).map .bulkString)

/-- Modelled from the spec: raw SDIFF result over two set names — members of
the first set not in the second. -/
def sdiffRaw (srv : SetServer) (n1 n2 : String) : List Str :=
  (lookupSet srv n1).filter (fun s => !(decide (s ∈ lookupSet srv n2)))

/-- Modelled from the spec: raw SINTER result over two set names. -/
def sinterRaw (srv : SetServer) (n1 n2 : String) : List Str :=
  (lookupSet srv n1).filter (fun s => decide (s ∈ lookupSet srv n2))

/-- Modelled from the spec: raw SUNION result over two set names. -/
def sunionRaw (srv : SetServer) (n1 n2 : String) : List Str :=
  lookupSet srv n1 ++ (lookupSet srv n2).filter (fun s => !(decide (s ∈ lookupSet srv n1)))

/-- The helper `details::add_impl` (src/redispack/set.h): issues SADD with the encoded
member strings and interprets the integer reply as the added count. -/
def add_impl (srv : SetServer) (name : String) (member_strs : List Str) :
    SetServer × Nat :=
  let p := saddList (lookupSet srv name) member_strs
  (assocSet srv name p.1, count_reply (.integer (p.2 : Int)))

/-- The helper `details::rem_impl` (src/redispack/set.h): issues SREM with the encoded
member strings and interprets the integer reply as the removed count. -/
def rem_impl (srv : SetServer) (name : String) (member_strs : List Str) :
    SetServer × Nat :=
  let p := sremList (lookupSet srv name) member_strs
  (assocSet srv name p.1, count_reply (.integer (p.2 : Int)))

/-- The operation `set<T>::add(const std::vector<T>&)`: encodes each member and delegates
to `add_impl`. -/
def set_add {T : Type} (c : Codec T) (srv : SetServer) (name : String)
    (members : List T) : SetServer × Nat :=
  add_impl srv name (members.map (encode_into_str c))

/-- The operation `set<T>::rem(const std::vector<T>&)`: encodes each member and delegates
to `rem_impl`. -/
def set_rem {T : Type} (c : Codec T) (srv : SetServer) (name : String)
    (members : List T) : SetServer × Nat :=
  rem_impl srv name (members.map (encode_into_str c))

/-- The contents of the std::vector materialized from an iterator range
[begin, end) over an underlying sequence. -/
def rangeMaterialize {T : Type} (base : List T) (i j : Nat) : List T :=
  (base.drop i).take (j - i)

/-- The operation `set<T>::add(begin_it, end_it)`: materializes the range into a
std::vector and calls the vector overload. -/
def set_add_range {T : Type} (c : Codec T) (srv : SetServer) (name : String)
    (base : List T) (i j : Nat) : SetServer × Nat :=
  set_add c srv name (rangeMaterialize base i j)

/-- The operation `set<T>::rem(begin_it, end_it)`: materializes the range into a
std::vector and calls the vector overload. -/
def set_rem_range {T : Type} (c : Codec T) (srv : SetServer) (name : String)
    (base : List T) (i j : Nat) : SetServer × Nat :=
  set_rem c srv name (rangeMaterialize base i j)

/-- The operation `set<T>::card`: issues SCARD and interprets the integer reply. -/
def set_card (srv : SetServer) (name : String) : Nat :=
  count_reply (scardReply srv name)

/-- The operation `set<T>::members`: issues SMEMBERS and collects the decodable bulk
strings of the array reply into an unordered_set. -/
def set_members {T : Type} [DecidableEq T] (c : Codec T) (srv : SetServer)
    (name : String) : List T :=
  collect_reply c (smembersReply srv name)

/-- The operation `set<T>::clear`: fetches `members()`, collects the set into a vector,
and calls the vector overload of `rem` on it. -/
def set_clear {T : Type} [DecidableEq T] (c : Codec T) (srv : SetServer)
    (name : String) : SetServer × Nat :=
  set_rem c srv name (set_members c srv name)

/-- The operation `set<T>::diff`: issues SDIFF over the two set names and collects the
decodable bulk strings of the array reply. -/
def set_diff {T : Type} [DecidableEq T] (c : Codec T) (srv : SetServer)
    (n1 n2 : String) : List T :=
  collect_reply c (.array ((sdiffRaw srv n1 n2).map .bulkString))

/-- The operation `set<T>::inter`: issues SINTER over the two set names and collects the
decodable bulk strings of the array reply. -/
def set_inter {T : Type} [DecidableEq T] (c : Codec T) (srv : SetServer)
    (n1 n2 : String) : List T :=
  collect_reply c (.array ((sinterRaw srv n1 n2).map .bulkString))

/-- The operation `set<T>::union_`: issues SUNION over the two set names and collects the
decodable bulk strings of the array reply. -/
def set_union {T : Type} [DecidableEq T] (c : Codec T) (srv : SetServer)
    (n1 n2 : String) : List T :=
  collect_reply c (.array ((sunionRaw srv n1 n2).map .bulkString))

/-- The server-side store of Redis hashes: each hash name maps to the list
of (field string, value string) entries. -/
abbrev HashServer := List (String × List (Str × Str))

/-- Fields of the named remote hash (absent name means empty hash). -/
def lookupHash (srv : HashServer) (name : String) : List (Str × Str) :=
  (assocGet srv name).getD []

/-- Modelled from the spec: HSETNX — create-if-absent, integer reply 1 when
the field was created, 0 when it already existed (value unchanged). -/
def hsetnxFields (fields : List (Str × Str)) (k v : Str) :
    List (Str × Str) × Int :=
  if (assocGet fields k).isSome then (fields, 0)
  else (fields ++ [(k, v)], 1)

/-- Modelled from the spec: HDEL over a list of field keys — each present
field is removed and counted; the integer reply is the removed count. -/
def hdelFields (fields : List (Str × Str)) (keys : List Str) :
    List (Str × Str) × Int :=
  match keys with
  | [] => (fields, 0)
  | k :: rest =>
      if (assocGet fields k).isSome then
        let p := hdelFields (fields.filter (fun e => !(e.1 == k))) rest
        (p.1, p.2 + 1)
      else hdelFields fields rest

/-- Modelled from the spec: the HGET reply — bulk string when the field is
present, null reply when absent. -/
def hgetReply (fields : List (Str × Str)) (k : Str) : Reply :=
  match assocGet fields k with
  | some s => .bulkString s
  | none => .null

/-- Modelled from the spec: the HEXISTS reply — integer 1 when the field is
present, 0 otherwise. -/
def hexistsReply (fields : List (Str × Str)) (k : Str) : Reply :=
  .integer (if (assocGet fields k).isSome then 1 else 0)

/-- The operation `hash<K,V>::setnx`: encodes key and value, issues HSETNX, and reports
whether the integer reply equals 1. -/
def hash_setnx {K V : Type} (cK : Codec K) (cV : Codec V) (srv : HashServer)
    (name : String) (k : K) (v : V) : HashServer × Bool :=
  let key_str := encode_into_str cK k
  let val_str := encode_into_str cV v
  let p := hsetnxFields (lookupHash srv name) key_str val_str
  (assocSet srv name p.1, flag_eq_one_reply (.integer p.2))

/-- The operation `hash<K,V>::get`: encodes the key, issues HGET; the option starts as
None and is overwritten with the decode of the reply only when the reply is
a bulk string. -/
def hash_get {K V : Type} (cK : Codec K) (cV : Codec V) (srv : HashServer)
    (name : String) (k : K) : Option V :=
  match hgetReply (lookupHash srv name) (encode_into_str cK k) with
  | .bulkString s => decode_from_str cV s
  | _ => none

/-- The operation `hash<K,V>::del`: encodes the key into a singleton key vector, issues
HDEL, and reports whether the integer reply is greater than 0. -/
def hash_del {K : Type} (cK : Codec K) (srv : HashServer) (name : String)
    (k : K) : HashServer × Bool :=
  let key_strs := [encode_into_str cK k]
  let p := hdelFields (lookupHash srv name) key_strs
  (assocSet srv name p.1, deleted_reply (.integer p.2))

/-- The operation `hash<K,V>::exists`: encodes the key, issues HEXISTS, and reports
whether the integer reply equals 1. -/
def hash_exists {K : Type} (cK : Codec K) (srv : HashServer) (name : String)
    (k : K) : Bool :=
  flag_eq_one_reply (hexistsReply (lookupHash srv name) (encode_into_str cK k))

/-- The operation `hash<K,V>::len`: issues HLEN and interprets the integer reply. -/
def hash_len (srv : HashServer) (name : String) : Nat :=
  count_reply (.integer ((lookupHash srv name).length))

/-- The behavior of the external cpp_redis client as seen by
`make_and_connect`: constructing the client and connecting it may each
raise (modelled by the `Except` error branch). -/
structure ClientBehavior (E C : Type) where
  create : Except E C
  connect : C → String → Nat → Except E Unit

/-- Constant `details::DEFAULT_HOST` (src/redispack/connection.h). -/
def DEFAULT_HOST : String := "127.0.0.1"

/-- Constant `details::DEFAULT_PORT` (src/redispack/connection.h). -/
def DEFAULT_PORT : Nat := 6379

/-- The function `make_and_connect` (src/redispack/connection.h): constructs a client and
connects it inside a try block, returning Ok with the client pointer on
success; any exception from either step is caught and returned as Err. -/
def make_and_connect {E C : Type} (b : ClientBehavior E C) (host : String)
    (port : Nat) : Except E C :=
  match b.create with
  | .error e => .error e
  | .ok cl =>
      match b.connect cl host port with
      | .error e => .error e
      | .ok _ => .ok cl

/-- A concrete codec instance used for witnesses: the msgpack positive
fixint format on `Fin 128` — a value 0..127 packs to the single byte with
that value; unpack accepts exactly one byte below 0x80 and fails (raises)
on anything else, in particular on the empty buffer. -/
def fixintCodec : Codec (Fin 128) where
  pack v := String.mk [Char.ofNat v.val]
  unpackConvert s :=
    match s.data with
    | [ch] =>
        if h : ch.toNat < 128 then .ok ⟨ch.toNat, h⟩
        else .error "convert failed"
    | _ => .error "unpack failed"

/-- A concrete client behavior used for witnesses: creation yields client 7
and connecting always succeeds. -/
def okBehavior : ClientBehavior String Nat where
  create := .ok 7
  connect := fun _ _ _ => .ok ()

instance {E α : Type} [DecidableEq E] [DecidableEq α] : DecidableEq (Except E α)
  | .ok x, .ok y => decidable_of_iff (x = y) ⟨congrArg _, Except.ok.inj⟩
  | .ok _, .error _ => isFalse (fun hc => Except.noConfusion hc)
  | .error _, .ok _ => isFalse (fun hc => Except.noConfusion hc)
  | .error x, .error y => decidable_of_iff (x = y) ⟨congrArg _, Except.error.inj⟩

-- General lemmas about the embedding

lemma assocGet_assocSet {α : Type} (l : List (String × α)) (k : String) (x : α) :
    assocGet (assocSet l k x) k = some x := by
  induction l with
  | nil => simp [assocGet, assocSet]
  | cons e rest ih =>
      obtain ⟨n, y⟩ := e
      by_cases h : n = k
      · simp [assocSet, h, assocGet]
      · simp [assocSet, h, assocGet, ih]

lemma lookupSet_assocSet (srv : SetServer) (name : String) (ms : List Str) :
    lookupSet (assocSet srv name ms) name = ms := by
  simp [lookupSet, assocGet_assocSet]

lemma lookupHash_assocSet (srv : HashServer) (name : String)
    (fs : List (Str × Str)) :
    lookupHash (assocSet srv name fs) name = fs := by
  simp [lookupHash, assocGet_assocSet]

lemma decode_from_str_eq_some {T : Type} (c : Codec T) (s : Str) (v : T) :
    decode_from_str c s = some v ↔ c.unpackConvert s = .ok v := by
  unfold decode_from_str
  cases h : c.unpackConvert s <;> simp

lemma collect_reply_map {T : Type} [DecidableEq T] (c : Codec T) (l : List Str) :
    collect_reply c (.array (l.map .bulkString)) =
      (l.filterMap (decode_from_str c)).dedup := by
  simp [collect_reply, List.filterMap_map]
  rfl

lemma count_reply_ofNat (n : Nat) (h : n < 2 ^ 64) :
    count_reply (.integer (n : Int)) = n := by
  have h1 : (n : Int) % (2 : Int) ^ 64 = n :=
    Int.emod_eq_of_lt (by exact_mod_cast Nat.zero_le n) (by exact_mod_cast h)
  show ((n : Int) % (2 : Int) ^ 64).toNat = n
  rw [h1]
  simp

lemma removeStr_cons_self (mems : List Str) (s : Str) :
    removeStr (s :: mems) s = mems := by
  simp [removeStr]

lemma removeStr_cons_ne (mems : List Str) (s t : Str) (h : ¬s = t) :
    removeStr (s :: mems) t = s :: removeStr mems t := by
  simp [removeStr, h]

lemma sremList_cons_not_mem (toRem : List Str) (mems : List Str) (s : Str)
    (h : s ∉ toRem) :
    sremList (s :: mems) toRem =
      (s :: (sremList mems toRem).1, (sremList mems toRem).2) := by
  induction toRem generalizing mems with
  | nil => simp [sremList]
  | cons t ts ih =>
      have hts : s ∉ ts := fun hx => h (List.mem_cons_of_mem _ hx)
      have hst : ¬s = t := fun hx => h (by simp [hx])
      by_cases hm : t ∈ mems
      · have hm2 : t ∈ s :: mems := List.mem_cons_of_mem _ hm
        simp only [sremList, if_pos hm2, if_pos hm,
          removeStr_cons_ne mems s t hst]
        rw [ih _ hts]
      · have hm2 : t ∉ s :: mems := by
          intro hx
          rcases List.mem_cons.mp hx with hx1 | hx2
          · exact hst hx1.symm
          · exact hm hx2
        simp only [sremList, if_neg hm2, if_neg hm]
        exact ih _ hts

lemma sremList_filter (mems : List Str) (p : Str → Bool) (h : mems.Nodup) :
    sremList mems (mems.filter p) =
      (mems.filter (fun s => !(p s)), (mems.filter p).length) := by
  induction mems with
  | nil => simp [sremList]
  | cons s rest ih =>
      have hns : s ∉ rest := (List.nodup_cons.mp h).1
      have hnd : rest.Nodup := (List.nodup_cons.mp h).2
      by_cases hp : p s
      · rw [List.filter_cons_of_pos hp]
        simp only [sremList, if_pos (List.mem_cons_self s rest),
          removeStr_cons_self]
        rw [ih hnd, List.filter_cons_of_neg (by simp [hp])]
        simp
      · rw [List.filter_cons_of_neg (by simp [hp])]
        have hnotin : s ∉ rest.filter p :=
          fun hx => hns (List.mem_of_mem_filter hx)
        rw [sremList_cons_not_mem _ _ _ hnotin, ih hnd,
          List.filter_cons_of_pos (by simp [hp])]

lemma filterMap_decode_map_pack {T : Type} (c : Codec T) (store : List Str)
    (hcan : ∀ s ∈ store, ∀ v, c.unpackConvert s = .ok v →
      encode_into_str c v = s) :
    (store.filterMap (decode_from_str c)).map (encode_into_str c) =
      store.filter (fun s => (decode_from_str c s).isSome) := by
  induction store with
  | nil => simp
  | cons s rest ih =>
      have hrest : ∀ x ∈ rest, ∀ v, c.unpackConvert x = .ok v →
          encode_into_str c v = x :=
        fun x hx => hcan x (List.mem_cons_of_mem _ hx)
      cases h : decode_from_str c s with
      | none =>
          rw [List.filterMap_cons_none h,
            List.filter_cons_of_neg (by simp [h])]
          exact ih hrest
      | some v =>
          have hv : encode_into_str c v = s :=
            hcan s (List.mem_cons_self s rest) v
              ((decode_from_str_eq_some c s v).mp h)
          rw [List.filterMap_cons_some h, List.map_cons, hv,
            List.filter_cons_of_pos (by simp [h])]
          rw [ih hrest]

lemma nodup_filterMap_decode {T : Type} (c : Codec T) (store : List Str)
    (hnd : store.Nodup)
    (hcan : ∀ s ∈ store, ∀ v, c.unpackConvert s = .ok v →
      encode_into_str c v = s) :
    (store.filterMap (decode_from_str c)).Nodup := by
  have h1 := filterMap_decode_map_pack c store hcan
  have h2 : (store.filter (fun s => (decode_from_str c s).isSome)).Nodup :=
    hnd.filter _
  rw [← h1] at h2
  exact h2.of_map

lemma clear_spec {T : Type} [DecidableEq T] (c : Codec T) (srv : SetServer)
    (name : String) (hnd : (lookupSet srv name).Nodup)
    (hcan : ∀ s ∈ lookupSet srv name, ∀ v, c.unpackConvert s = .ok v →
      encode_into_str c v = s) :
    set_clear c srv name =
      (assocSet srv name ((lookupSet srv name).filter
          (fun s => !((decode_from_str c s).isSome))),
        count_reply (.integer (((lookupSet srv name).filter
          (fun s => (decode_from_str c s).isSome)).length : Int))) := by
  have hmem : set_members c srv name =
      (lookupSet srv name).filterMap (decode_from_str c) := by
    rw [set_members, smembersReply, collect_reply_map]
    exact List.dedup_eq_self.mpr (nodup_filterMap_decode c _ hnd hcan)
  rw [set_clear, hmem, set_rem, rem_impl,
    filterMap_decode_map_pack c _ hcan,
    sremList_filter _ _ hnd]

-- Claim theorems

/-- C1: for every codec-supported value v (i.e. the external msgpack codec
round-trips v at the pack/unpack level), `decode_from_str` applied to the
byte string produced by `encode_into_str` yields exactly `some v`. -/
theorem C1_decode_encode_roundtrip {T : Type} (c : Codec T) (v : T)
    (h : c.unpackConvert (c.pack v) = .ok v) :
    decode_from_str c (encode_into_str c v) = some v := by
  simp [encode_into_str, decode_from_str, h]

/-- C1 witness: the concrete msgpack fixint codec at value 5. -/
theorem C1_witness :
    fixintCodec.unpackConvert (fixintCodec.pack (5 : Fin 128)) = .ok 5 ∧
      decode_from_str fixintCodec (encode_into_str fixintCodec (5 : Fin 128)) =
        some 5 :=
  ⟨rfl, C1_decode_encode_roundtrip fixintCodec 5 rfl⟩

/-- C2: `decode_from_str` is total and never propagates an error: for every
byte string it returns `some` exactly when the structural unpack/convert
step succeeds and `none` on any unpack/convert failure. -/
theorem C2_decode_total {T : Type} (c : Codec T) (s : Str) :
    (∃ v, c.unpackConvert s = .ok v ∧ decode_from_str c s = some v) ∨
      (∃ e, c.unpackConvert s = .error e ∧ decode_from_str c s = none) := by
  cases h : c.unpackConvert s with
  | ok v => exact .inl ⟨v, rfl, by simp [decode_from_str, h]⟩
  | error e => exact .inr ⟨e, rfl, by simp [decode_from_str, h]⟩

/-- C8: a reply whose shape does not match the expected one yields the
default result: the counting callbacks yield 0, the boolean-flag callbacks
yield false, and the collection callbacks yield the empty collection; no
error is ever raised. -/
theorem C8_default_on_shape_mismatch {T : Type} [DecidableEq T] (c : Codec T)
    (r : Reply) :
    (r.is_integer = false →
      count_reply r = 0 ∧ flag_eq_one_reply r = false ∧
        deleted_reply r = false) ∧
      (r.is_array = false → collect_reply c r = []) := by
  cases r <;> simp [Reply.is_integer, Reply.is_array, count_reply,
    flag_eq_one_reply, deleted_reply, collect_reply]

/-- C8 witness: the null reply (neither integer nor array) at the concrete
codec. -/
theorem C8_witness :
    count_reply .null = 0 ∧ flag_eq_one_reply .null = false ∧
      deleted_reply .null = false ∧ collect_reply fixintCodec .null = [] := by
  have h := C8_default_on_shape_mismatch fixintCodec .null
  exact ⟨(h.1 rfl).1, (h.1 rfl).2.1, (h.1 rfl).2.2, h.2 rfl⟩

/-- C9: `make_and_connect` never lets an exception escape: when client
creation and connect both succeed it returns Ok with the client, and any
exception raised during creation or connect is caught and returned as an
Err value. -/
theorem C9_make_and_connect_catches {E C : Type} (b : ClientBehavior E C)
    (host : String) (port : Nat) :
    (∀ e, b.create = .error e → make_and_connect b host port = .error e) ∧
      (∀ cl, b.create = .ok cl →
        (∀ e, b.connect cl host port = .error e →
          make_and_connect b host port = .error e) ∧
          (b.connect cl host port = .ok () →
            make_and_connect b host port = .ok cl)) := by
  refine ⟨fun e he => by simp [make_and_connect, he], fun cl hcl => ⟨?_, ?_⟩⟩
  · intro e he
    simp [make_and_connect, hcl, he]
  · intro hok
    simp [make_and_connect, hcl, hok]

/-- C9 witness: a concrete behavior whose creation yields client 7 and whose
connect succeeds; `make_and_connect` returns Ok 7 at the default endpoint. -/
theorem C9_witness :
    make_and_connect okBehavior DEFAULT_HOST DEFAULT_PORT = .ok 7 :=
  ((C9_make_and_connect_catches okBehavior DEFAULT_HOST DEFAULT_PORT).2
    7 rfl).2 rfl

/-- C10: the iterator-range overloads of `set::add` and `set::rem` return
the same result as the std::vector overloads applied to the materialized
range. -/
theorem C10_range_overloads_agree {T : Type} (c : Codec T) (srv : SetServer)
    (name : String) (base : List T) (i j : Nat) :
    set_add_range c srv name base i j =
        set_add c srv name (rangeMaterialize base i j) ∧
      set_rem_range c srv name base i j =
        set_rem c srv name (rangeMaterialize base i j) :=
  ⟨rfl, rfl⟩

/-- C3 counterexample: a remote set holding one member (the empty byte
string, which the msgpack codec fails to decode).  `clear()` then returns 0,
not the member count 1, and `card()` afterwards is still 1, not 0. -/
theorem C3_counterexample :
    ¬((set_clear fixintCodec [("s", [""])] "s").2 =
        (lookupSet [("s", [""])] "s").length ∧
      set_card (set_clear fixintCodec [("s", [""])] "s").1 "s" = 0) := by
  decide

/-- C3 (amended): for every set facade whose remote collection holds N
members, each of which is the facade encoding of some value of the element
type (round-tripping through the codec), clear() returns N and immediately
afterwards card() = 0 (with no concurrent writers, and N within size_t
range). -/
theorem C3_clear_returns_count {T : Type} [DecidableEq T] (c : Codec T)
    (srv : SetServer) (name : String)
    (hnd : (lookupSet srv name).Nodup)
    (hall : ∀ s ∈ lookupSet srv name, ∃ v, encode_into_str c v = s ∧
      c.unpackConvert s = .ok v)
    (hlt : (lookupSet srv name).length < 2 ^ 64) :
    (set_clear c srv name).2 = (lookupSet srv name).length ∧
      set_card (set_clear c srv name).1 name = 0 := by
  have hcan : ∀ s ∈ lookupSet srv name, ∀ v, c.unpackConvert s = .ok v →
      encode_into_str c v = s := by
    intro s hs v hv
    obtain ⟨w, hw1, hw2⟩ := hall s hs
    have hwv : w = v := Except.ok.inj (hw2.symm.trans hv)
    rw [← hwv]
    exact hw1
  have hfilter : (lookupSet srv name).filter
      (fun s => (decode_from_str c s).isSome) = lookupSet srv name := by
    apply List.filter_eq_self.mpr
    intro s hs
    obtain ⟨v, _, hv2⟩ := hall s hs
    simp [decode_from_str, hv2]
  have hfilter2 : (lookupSet srv name).filter
      (fun s => !((decode_from_str c s).isSome)) = [] := by
    apply List.filter_eq_nil_iff.mpr
    intro s hs
    obtain ⟨v, _, hv2⟩ := hall s hs
    simp [decode_from_str, hv2]
  rw [clear_spec c srv name hnd hcan, hfilter, hfilter2]
  refine ⟨count_reply_ofNat _ hlt, ?_⟩
  simp [set_card, scardReply, lookupSet_assocSet, count_reply, size_t_of_int]

/-- C3 witness for the amended claim: a remote set holding the encodings of
values 1 and 2; clear() returns 2 and card() afterwards is 0. -/
theorem C3_witness :
    (lookupSet [("s", [encode_into_str fixintCodec (1 : Fin 128),
        encode_into_str fixintCodec (2 : Fin 128)])] "s").Nodup ∧
      (set_clear fixintCodec [("s", [encode_into_str fixintCodec (1 : Fin 128),
          encode_into_str fixintCodec (2 : Fin 128)])] "s").2 =
        (lookupSet [("s", [encode_into_str fixintCodec (1 : Fin 128),
          encode_into_str fixintCodec (2 : Fin 128)])] "s").length ∧
      set_card (set_clear fixintCodec
          [("s", [encode_into_str fixintCodec (1 : Fin 128),
            encode_into_str fixintCodec (2 : Fin 128)])] "s").1 "s" = 0 := by
  have h := C3_clear_returns_count fixintCodec
    [("s", [encode_into_str fixintCodec (1 : Fin 128),
      encode_into_str fixintCodec (2 : Fin 128)])] "s"
    (by decide)
    (by
      intro s hs
      fin_cases hs
      · exact ⟨1, rfl, rfl⟩
      · exact ⟨2, rfl, rfl⟩)
    (by decide)
  exact ⟨by decide, h.1, h.2⟩

/-- A concrete codec instance exhibiting msgpack's non-canonical encodings:
as in real msgpack, unpack accepts both the one-byte positive fixint format
and the two-byte uint8 format (marker byte 0xcc followed by the value byte)
for the same small integer, while pack always emits the canonical fixint
byte. -/
def uint8Codec : Codec (Fin 128) where
  pack v := String.mk [Char.ofNat v.val]
  unpackConvert s :=
    match s.data with
    | [ch] =>
        if h : ch.toNat < 128 then .ok ⟨ch.toNat, h⟩
        else .error "convert failed"
    | [m, b] =>
        if m.toNat = 0xcc then
          if h : b.toNat < 128 then .ok ⟨b.toNat, h⟩
          else .error "convert failed"
        else .error "unpack failed"
    | _ => .error "unpack failed"

/-- C4 counterexample: a remote set holding the single member 0xcc 0x05 —
the non-canonical msgpack uint8 encoding of the value 5, which decodes
successfully.  clear() decodes it to 5, re-encodes 5 to the canonical
fixint byte 0x05, and issues SREM for that byte only, so the decodable
member is NOT removed (the remote set keeps it) and the returned count is
0, not 1: clear() does not remove exactly the decodable members. -/
theorem C4_counterexample :
    ¬(lookupSet (set_clear uint8Codec
          [("s", [String.mk [Char.ofNat 0xcc, Char.ofNat 5]])] "s").1 "s" =
        ([String.mk [Char.ofNat 0xcc, Char.ofNat 5]].filter
          (fun s => !((decode_from_str uint8Codec s).isSome))) ∧
      (set_clear uint8Codec
          [("s", [String.mk [Char.ofNat 0xcc, Char.ofNat 5]])] "s").2 =
        ([String.mk [Char.ofNat 0xcc, Char.ofNat 5]].filter
          (fun s => (decode_from_str uint8Codec s).isSome)).length) := by
  decide

/-- C4 (amended): provided every decodable stored member string is the
canonical encoding of its decoded value (re-encoding it returns the same
byte string), clear() removes exactly those members of the remote set whose
stored byte strings decode successfully as T: the members failing to decode
remain in the remote set, and the returned count is the number of decodable
members only. -/
theorem C4_clear_removes_decodables_only {T : Type} [DecidableEq T]
    (c : Codec T) (srv : SetServer) (name : String)
    (hnd : (lookupSet srv name).Nodup)
    (hcan : ∀ s ∈ lookupSet srv name, ∀ v, c.unpackConvert s = .ok v →
      encode_into_str c v = s)
    (hlt : ((lookupSet srv name).filter
      (fun s => (decode_from_str c s).isSome)).length < 2 ^ 64) :
    lookupSet (set_clear c srv name).1 name =
        (lookupSet srv name).filter
          (fun s => !((decode_from_str c s).isSome)) ∧
      (set_clear c srv name).2 =
        ((lookupSet srv name).filter
          (fun s => (decode_from_str c s).isSome)).length := by
  rw [clear_spec c srv name hnd hcan]
  exact ⟨lookupSet_assocSet srv name _, count_reply_ofNat _ hlt⟩

/-- C4 witness: a remote set holding the encoding of value 3 together with
the undecodable empty byte string; clear() leaves exactly the undecodable
member in the remote set and returns 1. -/
theorem C4_witness :
    lookupSet (set_clear fixintCodec
        [("s", [encode_into_str fixintCodec (3 : Fin 128), ""])] "s").1 "s" =
        ([encode_into_str fixintCodec (3 : Fin 128), ""].filter
          (fun s => !((decode_from_str fixintCodec s).isSome))) ∧
      (set_clear fixintCodec
        [("s", [encode_into_str fixintCodec (3 : Fin 128), ""])] "s").2 =
        ([encode_into_str fixintCodec (3 : Fin 128), ""].filter
          (fun s => (decode_from_str fixintCodec s).isSome)).length := by
  have h := C4_clear_removes_decodables_only fixintCodec
    [("s", [encode_into_str fixintCodec (3 : Fin 128), ""])] "s"
    (by decide) (by decide) (by decide)
  exact h

lemma mem_collect_reply {T : Type} [DecidableEq T] (c : Codec T)
    (l : List Str) (v : T) :
    v ∈ collect_reply c (.array (l.map .bulkString)) ↔
      ∃ s ∈ l, decode_from_str c s = some v := by
  rw [collect_reply_map]
  simp [List.mem_dedup, List.mem_filterMap]

/-- C5: diff, inter and union_ each return exactly the decodable part of the
server-side raw result over the two named collections: a value is in the
returned set iff some raw member string of the server-side result decodes to
it, so every raw string failing to decode as T is silently excluded. -/
theorem C5_algebra_returns_decodables {T : Type} [DecidableEq T] (c : Codec T)
    (srv : SetServer) (n1 n2 : String) (v : T) :
    (v ∈ set_diff c srv n1 n2 ↔
        ∃ s ∈ sdiffRaw srv n1 n2, decode_from_str c s = some v) ∧
      (v ∈ set_inter c srv n1 n2 ↔
        ∃ s ∈ sinterRaw srv n1 n2, decode_from_str c s = some v) ∧
      (v ∈ set_union c srv n1 n2 ↔
        ∃ s ∈ sunionRaw srv n1 n2, decode_from_str c s = some v) :=
  ⟨mem_collect_reply c _ v, mem_collect_reply c _ v, mem_collect_reply c _ v⟩

lemma assocGet_append_of_none {α : Type} (l : List (String × α)) (k : String)
    (x : α) (h : assocGet l k = none) :
    assocGet (l ++ [(k, x)]) k = some x := by
  induction l with
  | nil => simp [assocGet]
  | cons e rest ih =>
      obtain ⟨n, y⟩ := e
      by_cases hn : n = k
      · rw [assocGet, if_pos hn] at h
        exact absurd h (by simp)
      · rw [assocGet, if_neg hn] at h
        simp only [List.cons_append, assocGet, if_neg hn]
        exact ih h

/-- C6: setnx on an absent field returns true and stores the encoded value
under the encoded key; a subsequent setnx of v2 on the same field returns
false, and get still returns Some v, the stored value being unchanged. -/
theorem C6_setnx_create_if_absent {K V : Type} (cK : Codec K) (cV : Codec V)
    (srv : HashServer) (name : String) (k : K) (v v2 : V)
    (habs : assocGet (lookupHash srv name) (encode_into_str cK k) = none)
    (hrt : cV.unpackConvert (encode_into_str cV v) = .ok v) :
    (hash_setnx cK cV srv name k v).2 = true ∧
      assocGet (lookupHash (hash_setnx cK cV srv name k v).1 name)
          (encode_into_str cK k) = some (encode_into_str cV v) ∧
      (hash_setnx cK cV (hash_setnx cK cV srv name k v).1 name k v2).2 =
        false ∧
      assocGet (lookupHash
          (hash_setnx cK cV (hash_setnx cK cV srv name k v).1 name k v2).1
          name) (encode_into_str cK k) = some (encode_into_str cV v) ∧
      hash_get cK cV
          (hash_setnx cK cV (hash_setnx cK cV srv name k v).1 name k v2).1
          name k = some v := by
  have hunfold : ∀ (srv' : HashServer) (v' : V),
      hash_setnx cK cV srv' name k v' =
        (assocSet srv' name
          (hsetnxFields (lookupHash srv' name) (encode_into_str cK k)
            (encode_into_str cV v')).1,
          flag_eq_one_reply (.integer
            (hsetnxFields (lookupHash srv' name) (encode_into_str cK k)
              (encode_into_str cV v')).2)) :=
    fun _ _ => rfl
  have h1 : hsetnxFields (lookupHash srv name) (encode_into_str cK k)
      (encode_into_str cV v) =
      (lookupHash srv name ++ [(encode_into_str cK k, encode_into_str cV v)],
        1) := by
    simp [hsetnxFields, habs]
  have hget1 : assocGet
      (lookupHash srv name ++ [(encode_into_str cK k, encode_into_str cV v)])
      (encode_into_str cK k) = some (encode_into_str cV v) :=
    assocGet_append_of_none _ _ _ habs
  have hsrv1 : (hash_setnx cK cV srv name k v).1 =
      assocSet srv name
        (lookupHash srv name ++
          [(encode_into_str cK k, encode_into_str cV v)]) := by
    rw [hunfold srv v, h1]
  have hlook1 : lookupHash (hash_setnx cK cV srv name k v).1 name =
      lookupHash srv name ++
        [(encode_into_str cK k, encode_into_str cV v)] := by
    rw [hsrv1, lookupHash_assocSet]
  have h2 : hsetnxFields
      (lookupHash (hash_setnx cK cV srv name k v).1 name)
      (encode_into_str cK k) (encode_into_str cV v2) =
      (lookupHash srv name ++
        [(encode_into_str cK k, encode_into_str cV v)], 0) := by
    rw [hlook1]
    simp [hsetnxFields, hget1]
  have hsrv2 : (hash_setnx cK cV (hash_setnx cK cV srv name k v).1
      name k v2).1 =
      assocSet (hash_setnx cK cV srv name k v).1 name
        (lookupHash srv name ++
          [(encode_into_str cK k, encode_into_str cV v)]) := by
    rw [hunfold (hash_setnx cK cV srv name k v).1 v2, h2]
  have hlook2 : lookupHash
      (hash_setnx cK cV (hash_setnx cK cV srv name k v).1 name k v2).1 name =
      lookupHash srv name ++
        [(encode_into_str cK k, encode_into_str cV v)] := by
    rw [hsrv2, lookupHash_assocSet]
  refine ⟨?_, ?_, ?_, ?_, ?_⟩
  · rw [hunfold srv v, h1]
    simp [flag_eq_one_reply]
  · rw [hlook1]
    exact hget1
  · rw [hunfold (hash_setnx cK cV srv name k v).1 v2, h2]
    simp [flag_eq_one_reply]
  · rw [hlook2]
    exact hget1
  · have hpresent : assocGet (lookupHash
        (hash_setnx cK cV (hash_setnx cK cV srv name k v).1 name k v2).1
        name) (encode_into_str cK k) = some (encode_into_str cV v) := by
      rw [hlook2]
      exact hget1
    rw [show hash_get cK cV
        (hash_setnx cK cV (hash_setnx cK cV srv name k v).1 name k v2).1
        name k =
        (match hgetReply (lookupHash
          (hash_setnx cK cV (hash_setnx cK cV srv name k v).1 name k v2).1
          name) (encode_into_str cK k) with
        | .bulkString s => decode_from_str cV s
        | _ => none) from rfl,
      hgetReply, hpresent]
    exact (decode_from_str_eq_some cV _ v).mpr hrt

/-- C6 witness: setnx of value 2 at key 1 on an empty hash, then setnx of
value 3 at the same key. -/
theorem C6_witness :
    (hash_setnx fixintCodec fixintCodec [] "h" (1 : Fin 128)
        (2 : Fin 128)).2 = true ∧
      (hash_setnx fixintCodec fixintCodec
        (hash_setnx fixintCodec fixintCodec [] "h" (1 : Fin 128)
          (2 : Fin 128)).1 "h" (1 : Fin 128) (3 : Fin 128)).2 = false ∧
      hash_get fixintCodec fixintCodec
        (hash_setnx fixintCodec fixintCodec
          (hash_setnx fixintCodec fixintCodec [] "h" (1 : Fin 128)
            (2 : Fin 128)).1 "h" (1 : Fin 128) (3 : Fin 128)).1 "h"
        (1 : Fin 128) = some 2 := by
  have h := C6_setnx_create_if_absent fixintCodec fixintCodec [] "h"
    (1 : Fin 128) (2 : Fin 128) (3 : Fin 128) (by decide) rfl
  exact ⟨h.1, h.2.2.1, h.2.2.2.2⟩

lemma assocGet_filter_out {α : Type} (l : List (String × α)) (k : String) :
    assocGet (l.filter (fun e => !(e.1 == k))) k = none := by
  induction l with
  | nil => simp [assocGet]
  | cons e rest ih =>
      obtain ⟨n, y⟩ := e
      by_cases hn : n = k
      · simp [List.filter_cons, hn, ih]
      · simp [List.filter_cons, hn, assocGet, ih]

/-- C7: del on an absent field returns false; del on a present field returns
true and exists on the resulting server state returns false. -/
theorem C7_del_exists {K : Type} (cK : Codec K) (srv : HashServer)
    (name : String) (k : K) :
    (assocGet (lookupHash srv name) (encode_into_str cK k) = none →
        (hash_del cK srv name k).2 = false) ∧
      ((assocGet (lookupHash srv name) (encode_into_str cK k)).isSome →
        (hash_del cK srv name k).2 = true ∧
          hash_exists cK (hash_del cK srv name k).1 name k = false) := by
  constructor
  · intro h
    simp [hash_del, hdelFields, h, deleted_reply]
  · intro h
    constructor
    · simp [hash_del, hdelFields, h, deleted_reply]
    · simp [hash_exists, hash_del, hdelFields, h, lookupHash_assocSet,
        hexistsReply, assocGet_filter_out, flag_eq_one_reply]

/-- C7 witness: del at key 1 on an empty hash returns false; del at key 1 on
a hash holding field 1 returns true with exists false afterwards. -/
theorem C7_witness :
    (hash_del fixintCodec [] "h" (1 : Fin 128)).2 = false ∧
      (hash_del fixintCodec
        [("h", [(encode_into_str fixintCodec (1 : Fin 128), "x")])] "h"
        (1 : Fin 128)).2 = true ∧
      hash_exists fixintCodec
        (hash_del fixintCodec
          [("h", [(encode_into_str fixintCodec (1 : Fin 128), "x")])] "h"
          (1 : Fin 128)).1 "h" (1 : Fin 128) = false := by
  have ha := (C7_del_exists fixintCodec [] "h" (1 : Fin 128)).1 (by decide)
  have hp := (C7_del_exists fixintCodec
    [("h", [(encode_into_str fixintCodec (1 : Fin 128), "x")])] "h"
    (1 : Fin 128)).2 (by decide)
  exact ⟨ha, hp.1, hp.2⟩

end Redispack
